import Mathlib

/-!
# Verification of the Dulvit neural-network library core

Shallow embedding of the numeric-container layer (the GV vector/matrix
library) and of the neural-network layer/model code (`nn.js`), together
with theorems settling the frozen claims about the specification.

Conventions of the embedding:
* JS numbers are modelled as exact rationals (`ℚ`); the claims under
  study are algebraic/structural, not about float rounding.
* A JS `Matrix` is its `rows` field: `List (List ℚ)`; a `Vector` is its
  `values` field: `List ℚ`.
* Out-of-range JS array reads yield `undefined`; they are modelled with
  `List.getD _ _ 0`.  No claim exercises an out-of-range read on the
  value level (shapes are checked first, as in the source).
* `Math.log` and `Math.exp` are transcendental; definitions that apply
  them take an explicit function parameter (`lg`, `jsExp`) standing for
  the JS builtin.  Every theorem below is either parametric in that
  function or constrains it only by facts true of the builtin
  (`Math.exp 0 = 1`, `Math.exp x > 0`).
* In-place mutation through shared references matters for two claims
  (the early-stopping weight snapshots and `randomPermutation`'s
  non-mutation); those are modelled with an explicit store (a list of
  cells addressed by index), mirroring which JS object each write hits.
-/

namespace GVLib

/-- A JS `Vector`'s `values` array. -/
abbrev Vec := List ℚ

/-- A JS `Matrix`'s `rows` array. -/
abbrev Mat := List (List ℚ)

/-- Embeds `m[0].length` in the source: the column count read off the first row
(`0` for a row-less matrix). -/
def matCols (m : Mat) : ℕ := (m.headD []).length

/-- Embeds `GV._matMult(a, b)` from the source.  Branches, in source order:
`!a || !b || a.length === 0 || b.length === 0` returns `new Matrix([])`;
`a[0].length !== b.length` logs a shape error and returns `new Matrix([])`;
`b[0].length === 0` returns `new Matrix(Array(a.length).fill([]))`;
otherwise the triple-nested loop computes the product (the worker-based
branch for large matrices falls through to the identical synchronous
loop, so the value is the same on both size branches). -/
def matMult (a b : Mat) : Mat :=
  if a.length = 0 ∨ b.length = 0 then []
  else if matCols a ≠ b.length then []
  else if matCols b = 0 then List.replicate a.length []
  else (List.range a.length).map (fun i =>
    (List.range (matCols b)).map (fun j =>
      (List.range (matCols a)).foldl
        (fun s k => s + (a.getD i []).getD k 0 * (b.getD k []).getD j 0) 0))

/-- Whether the `a[0].length !== b.length` branch of `GV._matMult` is
taken, i.e. whether the call logs `Shapes do not match for matrix
multiplication` to the console.  Mirrors the source's branch order. -/
def matMultLogsShapeError (a b : Mat) : Bool :=
  if a.length = 0 ∨ b.length = 0 then false
  else if matCols a ≠ b.length then true
  else false

/-- Row-rectangularity: every row has the length of the first row.  The
source maintains this invariant for every matrix the claims touch. -/
def isRect (m : Mat) : Prop := ∀ r ∈ m, r.length = matCols m

instance (m : Mat) : Decidable (isRect m) := by
  unfold isRect; infer_instance

/-- Embeds `GV.mapMat(m, f)` (pure variant): after the null check, an empty-column
matrix is returned unchanged; otherwise the double loop writes
`f(row[j])` for `i < m.length`, `j < m[0].length` into a preallocated
`m.length × m[0].length` result. -/
def mapMat (f : ℚ → ℚ) (m : Mat) : Mat :=
  if m.length > 0 ∧ matCols m = 0 then m
  else (List.range m.length).map (fun i =>
    (List.range (matCols m)).map (fun j => f ((m.getD i []).getD j 0)))

/-- Embeds `GV.mapVec(v, f)` (pure variant): element-wise map. -/
def mapVec (f : ℚ → ℚ) (v : Vec) : Vec := v.map f

/-- Embeds `GV.sum(m, 0)` on a matrix: per-column sums, `sums[j] += mv[i][j]`
over `i < mv.length`, `j < mv[0].length`. -/
def sumAxis0 (m : Mat) : Vec :=
  (List.range (matCols m)).map (fun j =>
    (List.range m.length).foldl (fun s i => s + (m.getD i []).getD j 0) 0)

/-- Embeds `GV.sum(m, 1)` on a matrix: per-row sums, `sums[i] += row[j]` over
the row's own length. -/
def sumAxis1 (m : Mat) : Vec := m.map (fun row => row.foldl (· + ·) 0)

/-- Embeds `GV.oneOver(v)` on a vector: `mapVec(v, x => 1/x)`.  (`1/0` is `0`
in `ℚ` where JS gives `Infinity`; no claim divides by zero.) -/
def oneOverVec (v : Vec) : Vec := mapVec (fun x => 1 / x) v

/-- Embeds `GV.scale(m, s)` on a matrix: after the validity guard, an
empty-column matrix is returned unchanged, otherwise `mapMat(m, x => x*s)`. -/
def scaleMat (m : Mat) (s : ℚ) : Mat :=
  if m.length > 0 ∧ matCols m = 0 then m
  else mapMat (fun x => x * s) m

/-- Embeds `GV.multiplyMatrix(m1, m2)` (pure variant): the element-wise product,
loops `i < m1.length`, `j < m1[0].length`. -/
def multiplyMatrix (m1 m2 : Mat) : Mat :=
  (List.range m1.length).map (fun i =>
    (List.range (matCols m1)).map (fun j =>
      (m1.getD i []).getD j 0 * (m2.getD i []).getD j 0))

/-- Embeds `GV.subtractMatrix(m1, m2)` (pure variant).  Branch structure of the
source: the empty-column "fix" branches overwrite row 0 with zeros sized
to the other operand; a still-empty operand or a shape mismatch returns
`m1`; otherwise the element-wise difference is computed over
`i < m1.length`, `j < m1[0].length`. -/
def subtractMatrix (m1 m2 : Mat) : Mat :=
  let m1' := if m1.length > 0 ∧ matCols m1 = 0
    then m1.set 0 (List.replicate (matCols m2) 0) else m1
  let m2' := if m2.length > 0 ∧ matCols m2 = 0
    then m2.set 0 (List.replicate (matCols m1') 0) else m2
  if m1'.length > 0 ∧ matCols m1' = 0 then m1'
  else if m2'.length > 0 ∧ matCols m2' = 0 then m1'
  else if m1'.length ≠ m2'.length then m1'
  else if m1'.length > 0 ∧ m2'.length > 0 ∧ matCols m1' ≠ matCols m2' then m1'
  else (List.range m1'.length).map (fun i =>
    (List.range (matCols m1')).map (fun j =>
      (m1'.getD i []).getD j 0 - (m2'.getD i []).getD j 0))

/-- Embeds `GV.toN(n)`: the vector `[0, 1, ..., n-1]`. -/
def toN (n : ℕ) : Vec := (List.range n).map (fun k : ℕ => (k : ℚ))

/-- Embeds `GV.zeros(r, c)`. -/
def zerosMat (r c : ℕ) : Mat := List.replicate r (List.replicate c 0)

/-- Embeds `GV.ones(r, c)`. -/
def onesMat (r c : ℕ) : Mat := List.replicate r (List.replicate c 1)

/-- The `t` getter on `Matrix`: `n[i][j] = rows[j][i]` for
`i < rows[0].length`, `j < rows.length`. -/
def transpose (m : Mat) : Mat :=
  (List.range (matCols m)).map (fun i =>
    (List.range m.length).map (fun j => (m.getD j []).getD i 0))

/-- Embeds `GV.argmin(v)` on a vector: index of the first strict minimum
(`if (mv[i] < min)` updates, scanning from index 0). -/
def argmin (v : Vec) : ℕ :=
  (List.range v.length).foldl
    (fun acc i => if v.getD i 0 < v.getD acc 0 then i else acc) 0

/-- Embeds `GV.fromIndices(mv, indices)` with the default `axis = null` on a
matrix.  NOTE (faithful to the source): the loop body is
`newM.push(mv[i])`, **not** `newM.push(mv[indices[i]])` — the `indices`
argument only determines how many leading rows are copied, contradicting
the function's own doc comment ("the indices of the elements to
extract"). -/
def fromIndices (mv : Mat) (indices : Vec) : Mat :=
  (List.range indices.length).map (fun i => mv.getD i [])

end GVLib

namespace GVLib

/-! ### Helper lemmas -/

/-- Reading a mapped range list at an in-bounds index. -/
theorem getD_range_map {α : Type} [Inhabited α] (f : ℕ → α) (d : α) {n i : ℕ} (h : i < n) :
    ((List.range n).map f).getD i d = f i := by
  rw [List.getD_eq_getElem _ _ (by simpa using h)]
  simp

/-- The default head of a list is its entry at index 0. -/
theorem headD_eq_getD_zero {α : Type} (l : List α) (d : α) : l.headD d = l.getD 0 d := by
  cases l <;> simp

/-- A left fold that only accumulates additions equals the `Finset` sum. -/
theorem foldl_add_range (f : ℕ → ℚ) (n : ℕ) :
    (List.range n).foldl (fun s k => s + f k) 0 = ∑ l ∈ Finset.range n, f l := by
  suffices h : ∀ s : ℚ, (List.range n).foldl (fun s k => s + f k) s
      = s + ∑ l ∈ Finset.range n, f l by simpa using h 0
  induction n with
  | zero => simp
  | succ m ih =>
      intro s
      rw [show List.range (m+1) = List.range m ++ [m] by simpa using List.range_succ (n := m)]
      rw [List.foldl_append, ih s]
      simp [Finset.sum_range_succ, add_assoc]

namespace RandomPermutation

/-- One swap of the Fisher–Yates loop body on `result.values`:
`temp = values[i]; values[i] = values[j]; values[j] = temp`. -/
def listSwap (l : Vec) (i j : ℕ) : Vec :=
  (l.set i (l.getD j 0)).set j (l.getD i 0)

/-- Embeds `const j = Math.floor(Math.random() * (i + 1))`: the random draw for
loop index `i`, with `d i` standing for the `Math.random()` value. -/
def drawIndex (d : ℕ → ℚ) (i : ℕ) : ℕ := (⌊d i * (i + 1)⌋).toNat

/-- The Fisher–Yates loop of `GV.randomPermutation` (Vector branch):
`for (let i = result.length - 1; i > 0; i--)` swapping positions `i` and
`drawIndex d i`.  The argument is the loop counter's current value. -/
def fyLoop (d : ℕ → ℚ) : ℕ → Vec → Vec
  | 0, l => l
  | i + 1, l => fyLoop d i (listSwap l (i + 1) (drawIndex d (i + 1)))

/-- Embeds `GV.randomPermutation(v)` for a Vector `v`: clone, then run the
Fisher–Yates loop on the clone (the clone is a fresh value here; the
store-level model below makes the freshness explicit). -/
def randomPermutation (d : ℕ → ℚ) (v : Vec) : Vec :=
  fyLoop d (v.length - 1) v

end RandomPermutation

namespace Store

/-- A heap of JS `Vector.values` arrays, addressed by index.  Models
which concrete array object each write of the source hits. -/
abbrev VecStore := List Vec

/-- Embeds `VectorPrototype.clone`: `new GV.Vector([...this.values])` — allocate
a fresh cell holding a copy of the cell at `addr`; returns the updated
store and the fresh address. -/
def clone (s : VecStore) (addr : ℕ) : VecStore × ℕ :=
  (s ++ [s.getD addr []], s.length)

/-- Embeds `GV.randomPermutation(v)` for a Vector at address `addr`, at store
level: clone `v`, then run the Fisher–Yates loop writing only to the
clone's cell (`result.values[i] = ...`), and return the clone's address. -/
def randomPermutationStore (d : ℕ → ℚ) (s : VecStore) (addr : ℕ) : VecStore × ℕ :=
  let s1 := (clone s addr).1
  let res := (clone s addr).2
  let shuffled := RandomPermutation.fyLoop d ((s1.getD res []).length - 1) (s1.getD res [])
  (s1.set res shuffled, res)

end Store

namespace ModelTrain

/-- The index buffer of an epoch:
`let indices = Array.from(Array(xTrain.length).keys());`. -/
def epochIndices (n : ℕ) : Vec := toN n

/-- The shuffled-data computation at the top of each epoch of
`Model.train`, faithful to the source:

`GV.randomPermutation(new GV.Vector(indices)).values;`  — the shuffled
copy is **discarded** (the expression statement's value is not assigned),
and `indices` itself is left unchanged (`randomPermutation` clones);

`let [permX, permY] = [GV.fromIndices(xTrain, indices), ...];` — and
`GV.fromIndices` reads `mv[i]`, not `mv[indices[i]]`. -/
def epochPermute (d : ℕ → ℚ) (x : Mat) : Mat :=
  let indices := epochIndices x.length
  let _shuffled := RandomPermutation.randomPermutation d indices
  fromIndices x indices

/-- The batch slicing of one epoch: `batchPerEpoch = ceil(n / batchSize)`
batches, batch `j` being `permX.rows.slice(j*batchSize,
min((j+1)*batchSize, permX.length))`. -/
def epochBatches (bs : ℕ) (d : ℕ → ℚ) (x : Mat) : List Mat :=
  let permX := epochPermute d x
  (List.range ((x.length + bs - 1) / bs)).map
    (fun j => (permX.drop (j * bs)).take bs)

end ModelTrain

namespace NaNCheck

/-- A JS number as far as the `isNaN(batchLoss)` check is concerned:
either an ordinary value or `NaN`. -/
inductive JsNum where
  | num (q : ℚ)
  | nan
deriving DecidableEq

/-- Embeds `isNaN(x)`. -/
def JsNum.isNaN : JsNum → Bool
  | .nan => true
  | .num _ => false

/-- The message of the `Error` thrown by `Model.train` on a `NaN` batch
loss. -/
def nanErrorMessage : String := "Training failed: NaN loss detected"

/-- The nested epoch/batch loop of `Model.train`, projected onto the
claim's concern: batches are processed in order; for each, the batch
loss is computed (`lossOf e b` abstracts
`this._computeLoss(batchY.t, lastL)` for batch `b` of epoch `e`), and
`if (isNaN(batchLoss)) { ... throw new Error(...) }` aborts the whole
run — there is no `catch` between the `throw` and `train`'s caller.
Returns the list of batches whose loss was computed, and the fatal error
if one was thrown. -/
def runBatches (lossOf : ℕ → ℕ → JsNum) :
    List (ℕ × ℕ) → List (ℕ × ℕ) → List (ℕ × ℕ) × Option String
  | [], acc => (acc.reverse, none)
  | p :: rest, acc =>
      if (lossOf p.1 p.2).isNaN then ((p :: acc).reverse, some nanErrorMessage)
      else runBatches lossOf rest (p :: acc)

/-- The batch schedule of a full run: `maxEpochs` epochs of
`batchPerEpoch` batches, in order. -/
def schedule (maxEpochs batchPerEpoch : ℕ) : List (ℕ × ℕ) :=
  (List.range maxEpochs).flatMap (fun e =>
    (List.range batchPerEpoch).map (fun b => (e, b)))

/-- Embeds `Model.train`'s epoch/batch loop on the schedule. -/
def trainLoop (lossOf : ℕ → ℕ → JsNum) (maxEpochs batchPerEpoch : ℕ) :
    List (ℕ × ℕ) × Option String :=
  runBatches lossOf (schedule maxEpochs batchPerEpoch) []

end NaNCheck

namespace LossFunctions

/-- The `epsilon = 1e-15` of `CrossEntropy`. -/
def epsilonCE : ℚ := 1 / 10 ^ 15

/-- Embeds `CrossEntropy.f`'s clamping step:
`mapMat(o, val => Math.max(Math.min(val, 1 - epsilon), epsilon))`. -/
def crossEntropyClamp (o : Mat) : Mat :=
  mapMat (fun v => max (min v (1 - epsilonCE)) epsilonCE) o

/-- The per-example aggregation computed inside `CrossEntropy.f`:
`sum(mult(log(yPred), y), 1)`.  `GV.mult` on two `Matrix` operands
dispatches to `GV._matMult` — the **matrix product**, not the
element-wise product.  (The source then applies a unary minus to the
returned `Vector` object, which JS coerces to `NaN`; the vector itself
is kept here to state shape facts.)  `lg` stands for `Math.log`. -/
def crossEntropyInnerVec (lg : ℚ → ℚ) (o y : Mat) : Vec :=
  sumAxis1 (matMult (mapMat lg (crossEntropyClamp o)) y)

/-- Embeds `CrossEntropy.f`'s gradient: `delta = subtractMatrix(yPred, y)`. -/
def crossEntropyDelta (o y : Mat) : Mat :=
  subtractMatrix (crossEntropyClamp o) y

/-- The formula the claim states for the per-example loss:
`-Σ target·log(clampedPred)` with an **element-wise** product
(`GV.multiplyMatrix`) summed per example. -/
def crossEntropySpecLossVec (lg : ℚ → ℚ) (o y : Mat) : Vec :=
  mapVec (fun s => -s) (sumAxis1 (multiplyMatrix (mapMat lg (crossEntropyClamp o)) y))

/-- Embeds `Softmax`'s `ff` (the inference transform):
`GV.scale(exp, GV.oneOver(GV.sum(exp, 0)).values[0])` where
`exp = GV.exp(o)` — every entry of `exp(o)` is scaled by the reciprocal
of the **first column's** sum.  `jsExp` stands for `Math.exp`. -/
def softmaxFF (jsExp : ℚ → ℚ) (o : Mat) : Mat :=
  scaleMat (mapMat jsExp o) ((oneOverVec (sumAxis0 (mapMat jsExp o))).headD 0)

end LossFunctions

namespace NN

/-- Activation tag of a `Dense` layer.  The claims are settled on the
`'relu'` case of the constructor's switch; the remaining cases
(`sigmoid`, `tanh`, `elu`, `swish`) wrap `Math.exp`/`Math.tanh` and are
not needed for any claim. -/
inductive ActTag where
  | relu
deriving DecidableEq

/-- Embeds `NN.ReLU`'s `f`: `(mapMat(x, v => Math.max(0, v)),
mapMat(x, v => v > 0 ? 1 : 0))`. -/
def reluF (x : Mat) : Mat × Mat :=
  (mapMat (fun v => max 0 v) x, mapMat (fun v => if 0 < v then 1 else 0) x)

/-- A `Dense` layer with materialized weights.  `activation` models the
`this.activation` field: `none` when the constructor received no
activation argument (`undefined`), as happens in `Model.load`. -/
structure DenseLayer where
  size : ℕ
  activation : Option ActTag
  W : Mat
deriving DecidableEq

/-- Embeds `NN.Dense`'s `f` for a layer whose `W` is already materialized:
`z = mult(x, this.W)`; a zero-column `z` is replaced by `zeros(z.length, 1)`;
with an activation the activation's pair is returned, otherwise
`[z, ones(z.shape[0], this.size)]`. -/
def denseF (L : DenseLayer) (x : Mat) : Mat × Mat :=
  let z := matMult x L.W
  let z := if z.length > 0 ∧ matCols z = 0 then zerosMat z.length 1 else z
  match L.activation with
  | some .relu => reluF z
  | none => (z, onesMat z.length L.size)

/-- Loss-function tag.  The claims are settled with `SquareLoss`, whose
`ff` is the identity. -/
inductive LossTag where
  | squareLoss
deriving DecidableEq

/-- Embeds `lossFunction.ff`: `SquareLoss.ff(o) = o`. -/
def lossFF : LossTag → Mat → Mat
  | .squareLoss, o => o

/-- Embeds `NN.Model`'s fields used by `predict`/`save`/`load`. -/
structure Model where
  inputDim : ℕ
  layers : List DenseLayer
  lossTag : LossTag
deriving DecidableEq

/-- The bias augmentation `for (i) layerIn[i].push(1)`. -/
def appendBias (m : Mat) : Mat := m.map (fun row => row ++ [1])

/-- The bias strip of `predict`: each row loses its last element if its
length exceeds 1 (otherwise the source only warns). -/
def stripBias (m : Mat) : Mat :=
  m.map (fun row => if 1 < row.length then row.dropLast else row)

/-- Embeds `Model.predict(x)`: copy `x`, append the bias column, run each
layer's `f` followed by a bias append, strip the final bias column, and
return `lossFunction.ff(layerIn.t)`. -/
def predict (M : Model) (x : Mat) : Mat :=
  lossFF M.lossTag (transpose (stripBias
    (M.layers.foldl (fun acc L => appendBias (denseF L acc).1) (appendBias x))))

/-- One layer's record in `Model.save`'s JSON: `type` (always `Dense`
here), `size`, `weights`.  Faithful to the source, there is **no
activation field**: `save` stores only `type`, `size`, `weights` and
`params: {rate, alpha}` (both `undefined` for `Dense`). -/
structure SavedLayer where
  size : ℕ
  weights : Mat
deriving DecidableEq

/-- The serialized model state (`JSON.stringify`/`JSON.parse` of the
plain-number record is lossless and is elided). -/
structure SavedModel where
  inputDim : ℕ
  layers : List SavedLayer
  lossTag : LossTag
deriving DecidableEq

/-- Embeds `Model.save()`. -/
def save (M : Model) : SavedModel :=
  { inputDim := M.inputDim
    layers := M.layers.map (fun L => { size := L.size, weights := L.W })
    lossTag := M.lossTag }

/-- Embeds `Model.load(state)`: the `'Dense'` case constructs
`new NN.Dense(layerState.size)` — with **no activation argument**, so
the restored layer's `activation` is `undefined` — then restores `W`. -/
def load (s : SavedModel) : Model :=
  { inputDim := s.inputDim
    layers := s.layers.map (fun sl =>
      { size := sl.size, activation := none, W := sl.weights })
    lossTag := s.lossTag }

/-- The concrete model of the C1 failing input: one `Dense(1, 'relu')`
layer with weights `[[-1], [0]]` (1 input + bias row, 1 output) and
`SquareLoss`. -/
def c1Model : Model :=
  { inputDim := 1
    layers := [{ size := 1, activation := some .relu, W := [[-1], [0]] }]
    lossTag := .squareLoss }

end NN

namespace EarlyStopping

/-- The mutable training state relevant to early stopping, with the
heap made explicit so that reference aliasing is visible:
* `heap` — the store of weight matrices (one `ℚ` cell per matrix: the
  failing input uses a single `1×1` weight);
* `waddr` — the layer's `this.W` reference;
* `hist` — `weightHistory`: `getWeights()` returns `this.W`, so each
  push stores the *address*, not a copy;
* `histVals` — ghost field (no influence on control flow): the value the
  cell held at push time, i.e. what a deep-copy snapshot would have
  preserved;
* `vlosses` — `validationLosses`;
* `best` — `bestValLoss` (`none` = `Infinity`);
* `patience` — `patienceCounter`. -/
structure ESState where
  heap : List ℚ
  waddr : ℕ
  hist : List ℕ
  histVals : List ℚ
  vlosses : List ℚ
  best : Option ℚ
  patience : ℕ
deriving DecidableEq

/-- The initial state: one weight cell holding `w0`. -/
def esInit (w0 : ℚ) : ESState :=
  { heap := [w0], waddr := 0, hist := [], histVals := [],
    vlosses := [], best := none, patience := 0 }

/-- Embeds `valLoss < bestValLoss - earlyStoppingMinDelta` with
`bestValLoss = Infinity` initially. -/
def improvesB (best : Option ℚ) (v minDelta : ℚ) : Bool :=
  match best with
  | none => true
  | some b => v < b - minDelta

/-- One epoch of `Model.train`'s validation/early-stopping logic, with
the epoch's validation loss `v` supplied (abstracting the batched
validation-loss computation) and `δ` the net amount the epoch's batch
loop subtracts from the weight cell in place (`updateWeights` runs
`subtractMatrix(this.W, scale(dW, lr), true)`); the learning-rate
schedule is absorbed into `δ`, and the dead
`validationLossIncreaseCount` check (its counter is never incremented)
is omitted.  Faithful sequence: push `valLoss` onto
`validationLosses`; on improvement reset patience, update best, push
`getWeights()` (the reference!) onto `weightHistory`; otherwise bump
the patience counter and, once it reaches the limit, install
`weightHistory[argmin(validationLosses)]` and stop; a continuing epoch
runs its batches (mutating the cell) and pushes `getWeights()` again at
epoch end.  Returns the state and whether training stopped. -/
def esEpoch (patienceLimit : ℕ) (minDelta v δ : ℚ) (s : ESState) : ESState × Bool :=
  let s1 := { s with vlosses := s.vlosses ++ [v] }
  if improvesB s1.best v minDelta then
    let s2 := { s1 with
      best := some v
      patience := 0
      hist := s1.hist ++ [s1.waddr]
      histVals := s1.histVals ++ [s1.heap.getD s1.waddr 0] }
    let s3 := { s2 with heap := s2.heap.set s2.waddr (s2.heap.getD s2.waddr 0 - δ) }
    ({ s3 with
      hist := s3.hist ++ [s3.waddr]
      histVals := s3.histVals ++ [s3.heap.getD s3.waddr 0] }, false)
  else
    let s2 := { s1 with patience := s1.patience + 1 }
    if patienceLimit ≤ s2.patience then
      ({ s2 with waddr := s2.hist.getD (argmin s2.vlosses) 0 }, true)
    else
      let s3 := { s2 with heap := s2.heap.set s2.waddr (s2.heap.getD s2.waddr 0 - δ) }
      ({ s3 with
        hist := s3.hist ++ [s3.waddr]
        histVals := s3.histVals ++ [s3.heap.getD s3.waddr 0] }, false)

/-- The epoch loop: run each `(valLoss, δ)` epoch in order, stopping
when an epoch signals early termination. -/
def esRun (patienceLimit : ℕ) (minDelta : ℚ) : List (ℚ × ℚ) → ESState → ESState
  | [], s => s
  | (v, δ) :: rest, s =>
      let r := esEpoch patienceLimit minDelta v δ s
      if r.2 then r.1 else esRun patienceLimit minDelta rest r.1

/-- The C2 failing input: the spec's early-stopping scenario (validation
losses `[1.0, 0.9, 0.95, 0.97, 0.99]` scaled by 100 to stay integral,
`earlyStoppingPatience = 2`, `earlyStoppingMinDelta = 0`), each epoch's
batches subtracting `1` from the single weight cell, initial weight `0`,
`maxEpochs = 5`. -/
def c2Final : ESState :=
  esRun 2 0 [(100, 1), (90, 1), (95, 1), (97, 1), (99, 1)] (esInit 0)

end EarlyStopping

end GVLib

namespace Claims

open GVLib

/-! ### C5/C6 : matrix product -/

/-- The dimensions-compatible, all-dimensions-positive product branch of
`GV._matMult` produces the triple-loop result. -/
theorem matMult_compat_eq (a b : Mat)
    (ha : a.length ≠ 0) (hab : matCols a = b.length) (hk : matCols a ≠ 0)
    (hm : matCols b ≠ 0) :
    matMult a b = (List.range a.length).map (fun i =>
      (List.range (matCols b)).map (fun j =>
        (List.range (matCols a)).foldl
          (fun s k => s + (a.getD i []).getD k 0 * (b.getD k []).getD j 0) 0)) := by
  have hb : b.length ≠ 0 := by omega
  unfold matMult
  rw [if_neg (by push_neg; exact ⟨ha, hb⟩), if_neg (by simpa using hab), if_neg hm]

/-- C6.  Matrix-product correctness: for non-empty `A : n × k` and
`B : k × m` with `A.cols = B.rows`, `GV._matMult` returns a matrix of
shape `(n, m)` whose `(i, j)` entry is `∑ l < k, A[i][l] * B[l][j]`. -/
theorem matMult_correct (a b : Mat) (n k m : ℕ)
    (han : a.length = n) (hak : matCols a = k)
    (hbk : b.length = k) (hbm : matCols b = m)
    (hn : 0 < n) (hk : 0 < k) (hm : 0 < m) :
    (matMult a b).length = n ∧
    matCols (matMult a b) = m ∧
    isRect (matMult a b) ∧
    (∀ i j, i < n → j < m →
      ((matMult a b).getD i []).getD j 0
        = ∑ l ∈ Finset.range k, (a.getD i []).getD l 0 * (b.getD l []).getD j 0) := by
  have hres := matMult_compat_eq a b (by omega) (by omega) (by omega) (by omega)
  have hcols : matCols (matMult a b) = m := by
    rw [matCols, headD_eq_getD_zero, hres]
    rw [getD_range_map _ _ (by omega : 0 < a.length)]
    simpa using hbm
  refine ⟨by rw [hres]; simpa using han, hcols, ?_, ?_⟩
  · intro r hr
    rw [hres] at hr
    simp only [List.mem_map] at hr
    obtain ⟨i, _, rfl⟩ := hr
    rw [hcols]
    simpa using hbm
  · intro i j hi hj
    rw [hres]
    rw [getD_range_map _ _ (by omega : i < a.length)]
    rw [getD_range_map _ _ (by omega : j < matCols b)]
    rw [hak]
    exact foldl_add_range _ k

/-- Witness for `matMult_correct` at `A = [[1,2],[3,4]]`, `B = [[5,6],[7,8]]`. -/
theorem matMult_correct_witness :
    (([[1,2],[3,4]] : Mat).length = 2 ∧ matCols ([[1,2],[3,4]] : Mat) = 2 ∧
     ([[5,6],[7,8]] : Mat).length = 2 ∧ matCols ([[5,6],[7,8]] : Mat) = 2) ∧
    ((matMult [[1,2],[3,4]] [[5,6],[7,8]]).length = 2 ∧
     matCols (matMult [[1,2],[3,4]] [[5,6],[7,8]]) = 2 ∧
     isRect (matMult [[1,2],[3,4]] [[5,6],[7,8]]) ∧
     (∀ i j, i < 2 → j < 2 →
       ((matMult [[1,2],[3,4]] [[5,6],[7,8]]).getD i []).getD j 0
         = ∑ l ∈ Finset.range 2,
             (([[1,2],[3,4]] : Mat).getD i []).getD l 0 *
             (([[5,6],[7,8]] : Mat).getD l []).getD j 0)) :=
  ⟨by decide, matMult_correct [[1,2],[3,4]] [[5,6],[7,8]] 2 2 2
    (by decide) (by decide) (by decide) (by decide)
    (by decide) (by decide) (by decide)⟩

/-- C5 counterexample.  For `A = [[1,2]]` (`1×2`) and `B = [[3]]` (`1×1`)
the inner dimensions disagree (`A.cols = 2 ≠ 1 = B.rows`), yet
`GV._matMult` *returns a result value* — the empty matrix — instead of
failing with a `ShapeMismatch` error: the source logs to the console and
executes `return new GV.Matrix([])`; no error is raised on any path. -/
theorem matMult_mismatch_returns_value :
    matMult [[1, 2]] [[3]] = ([] : Mat) ∧
    matMultLogsShapeError [[1, 2]] [[3]] = true := by
  constructor <;> rfl

/-- C5 amended.  For every pair of non-empty matrices whose inner
dimensions disagree, `GV._matMult` logs a shape-mismatch error to the
console and returns the empty matrix `new Matrix([])` — a result value,
not a raised error. -/
theorem matMult_mismatch_empty (a b : Mat)
    (ha : a.length ≠ 0) (hb : b.length ≠ 0) (hne : matCols a ≠ b.length) :
    matMult a b = ([] : Mat) ∧ matMultLogsShapeError a b = true := by
  constructor
  · unfold matMult
    rw [if_neg (by push_neg; exact ⟨ha, hb⟩), if_pos hne]
  · unfold matMultLogsShapeError
    rw [if_neg (by push_neg; exact ⟨ha, hb⟩), if_pos hne]

/-- Witness for `matMult_mismatch_empty` at `A = [[1],[2]]` (`2×1`),
`B = [[5,6],[7,8]]` (`2×2`): `A.cols = 1 ≠ 2 = B.rows`. -/
theorem matMult_mismatch_empty_witness :
    (([[1],[2]] : Mat).length ≠ 0 ∧ ([[5,6],[7,8]] : Mat).length ≠ 0 ∧
     matCols ([[1],[2]] : Mat) ≠ ([[5,6],[7,8]] : Mat).length) ∧
    (matMult [[1],[2]] [[5,6],[7,8]] = ([] : Mat) ∧
     matMultLogsShapeError [[1],[2]] [[5,6],[7,8]] = true) :=
  ⟨by decide, matMult_mismatch_empty [[1],[2]] [[5,6],[7,8]]
    (by decide) (by decide) (by decide)⟩

/-! ### C1 : persistence round trip -/

/-- C1 (evaluation of the code at the failing input).  `Model.save`
records no activation for a `Dense` layer (only `type`, `size`,
`weights`, `params: {rate, alpha}`), and `Model.load`'s `'Dense'` case
constructs `new NN.Dense(layerState.size)` with no activation argument,
so the reloaded layer applies **no** activation.  For the one-layer
`Dense(1, 'relu')` model with weights `[[-1], [0]]` and input `[[1]]`,
the original model predicts `[[0]]` (ReLU of `-1`) while
`load(save(m))` predicts `[[-1]]` — the round trip does not preserve
predictions. -/
theorem load_save_changes_predictions :
    NN.predict NN.c1Model [[1]] = [[0]] ∧
    NN.predict (NN.load (NN.save NN.c1Model)) [[1]] = [[-1]] ∧
    NN.predict (NN.load (NN.save NN.c1Model)) [[1]] ≠ NN.predict NN.c1Model [[1]] := by
  have hz : matMult [[(1 : ℚ), 1]] [[-1], [0]] = [[-1]] := by
    norm_num [matMult, matCols, List.range_succ]
  have h1 : NN.predict NN.c1Model [[1]] = [[0]] := by
    simp only [NN.predict, NN.c1Model, List.foldl_cons, List.foldl_nil]
    rw [show NN.appendBias [[1]] = [[(1 : ℚ), 1]] from rfl]
    rw [show NN.denseF { size := 1, activation := some .relu, W := [[-1], [0]] }
          [[(1 : ℚ), 1]] = NN.reluF [[-1]] by
      simp only [NN.denseF, hz]
      norm_num [matCols]]
    rw [show NN.reluF [[(-1 : ℚ)]] = ([[0]], [[0]]) by
      norm_num [NN.reluF, mapMat, matCols, List.range_succ, max_def]]
    rfl
  have h2 : NN.predict (NN.load (NN.save NN.c1Model)) [[1]] = [[-1]] := by
    simp only [NN.predict, NN.c1Model, NN.save, NN.load, List.map_cons, List.map_nil,
      List.foldl_cons, List.foldl_nil]
    rw [show NN.appendBias [[1]] = [[(1 : ℚ), 1]] from rfl]
    rw [show NN.denseF { size := 1, activation := none, W := [[-1], [0]] }
          [[(1 : ℚ), 1]] = ([[-1]], onesMat 1 1) by
      simp only [NN.denseF, hz]
      norm_num [matCols]]
    rfl
  refine ⟨h1, h2, ?_⟩
  rw [h1, h2]
  intro h
  have := List.head_eq_of_cons_eq h
  have := List.head_eq_of_cons_eq this
  norm_num at this

/-! ### C2 : early stopping weight restore -/

open EarlyStopping in
/-- C2 (evaluation of the code at the failing input: the spec's
early-stopping scenario, losses scaled by 100).  The run does stop
during the 4th epoch with `validationLosses = [100, 90, 95, 97]`, and it
does install `weightHistory[argmin(validationLosses)]` — but
`weightHistory` holds *references* to the live weight matrix
(`getWeights()` returns `this.W`, and `updateWeights` subtracts in
place), so the installed weights hold `-3`, the value after epoch 3's
batch updates, not `-1`, the value the layer held when the
best-validation-loss epoch's snapshot was pushed.  The restore is a
no-op and the "snapshot" is corrupted by every later epoch's updates. -/
theorem earlyStopping_restores_aliased_weights :
    c2Final.vlosses = [100, 90, 95, 97] ∧
    c2Final.heap.getD c2Final.waddr 0 = -3 ∧
    c2Final.histVals.getD (argmin c2Final.vlosses) 0 = -1 ∧
    c2Final.heap.getD c2Final.waddr 0
      ≠ c2Final.histVals.getD (argmin c2Final.vlosses) 0 := by
  have hfinal : c2Final =
      ⟨[-3], 0, [0, 0, 0, 0, 0], [0, -1, -1, -2, -3], [100, 90, 95, 97], some 90, 2⟩ := by
    norm_num [c2Final, esRun, esEpoch, esInit, improvesB, argmin, List.range_succ]
  rw [hfinal]
  refine ⟨rfl, ?_, ?_, ?_⟩ <;> norm_num [argmin, List.range_succ]

/-! ### C4 : NaN batch loss aborts training -/

open NaNCheck in
/-- The batch loop processes clean batches, computes the first `NaN`
batch's loss, throws, and touches nothing after it. -/
theorem runBatches_stops_at_first_nan (lossOf : ℕ → ℕ → JsNum) :
    ∀ (l₁ : List (ℕ × ℕ)) (p : ℕ × ℕ) (l₂ acc : List (ℕ × ℕ)),
    (∀ q ∈ l₁, (lossOf q.1 q.2).isNaN = false) → (lossOf p.1 p.2).isNaN = true →
    runBatches lossOf (l₁ ++ p :: l₂) acc
      = (acc.reverse ++ l₁ ++ [p], some nanErrorMessage) := by
  intro l₁
  induction l₁ with
  | nil =>
      intro p l₂ acc _ hnan
      show runBatches lossOf (p :: l₂) acc = _
      rw [runBatches, if_pos hnan]
      simp
  | cons q t ih =>
      intro p l₂ acc hclean hnan
      show runBatches lossOf (q :: (t ++ p :: l₂)) acc = _
      rw [runBatches, if_neg (by rw [hclean q (by simp)]; simp)]
      rw [ih p l₂ (q :: acc) (fun r hr => hclean r (by simp [hr])) hnan]
      simp

open NaNCheck in
/-- C4.  NaN fatality: whenever the loss computed for a training batch
is `NaN`, `Model.train` raises the fatal error
`Training failed: NaN loss detected` and performs no further batches or
epochs: the processed prefix is exactly the clean batches before the
`NaN` one plus the `NaN` batch itself, and every later batch of the
schedule (including all later epochs) is never reached. -/
theorem train_aborts_on_nan (lossOf : ℕ → ℕ → JsNum) (maxEpochs batchPerEpoch : ℕ)
    (l₁ l₂ : List (ℕ × ℕ)) (p : ℕ × ℕ)
    (hsched : schedule maxEpochs batchPerEpoch = l₁ ++ p :: l₂)
    (hclean : ∀ q ∈ l₁, (lossOf q.1 q.2).isNaN = false)
    (hnan : (lossOf p.1 p.2).isNaN = true) :
    trainLoop lossOf maxEpochs batchPerEpoch = (l₁ ++ [p], some nanErrorMessage) := by
  unfold trainLoop
  rw [hsched, runBatches_stops_at_first_nan lossOf l₁ p l₂ [] hclean hnan]
  simp

open NaNCheck in
/-- Witness for `train_aborts_on_nan`: 2 epochs × 2 batches, the loss of
batch 0 of epoch 1 is `NaN`; batches `(0,0)`, `(0,1)`, `(1,0)` are
processed, the run errors, and batch `(1,1)` is never reached. -/
theorem train_aborts_on_nan_witness :
    (schedule 2 2 = [(0,0), (0,1)] ++ (1,0) :: [(1,1)] ∧
     (∀ q ∈ [((0:ℕ),(0:ℕ)), (0,1)],
       ((fun e b => if e = 1 ∧ b = 0 then JsNum.nan else JsNum.num 0) q.1 q.2).isNaN = false) ∧
     ((fun e b => if e = 1 ∧ b = 0 then JsNum.nan else JsNum.num 0) 1 0).isNaN = true) ∧
    trainLoop (fun e b => if e = 1 ∧ b = 0 then JsNum.nan else JsNum.num 0) 2 2
      = ([(0,0), (0,1), (1,0)], some nanErrorMessage) :=
  ⟨⟨by decide, by decide, by decide⟩,
   by
    rw [train_aborts_on_nan (fun e b => if e = 1 ∧ b = 0 then JsNum.nan else JsNum.num 0)
      2 2 [(0,0), (0,1)] [(1,1)] (1,0) (by decide) (by decide) (by decide)]
    rfl⟩

/-! ### C7 : CrossEntropy forward -/

open LossFunctions in
/-- C7 (evaluation of the code at the failing input
`o = [[1/2, 1/2]]`, `y = [[1, 0]]`, one example, two classes).
The clamping and the gradient behave as the claim states, but the
per-example loss does not: `CrossEntropy.f` computes
`sum(mult(log(yPred), y), 1)` with `GV.mult` — the **matrix product** —
which for this `1×2` batch takes `_matMult`'s shape-mismatch branch and
yields the empty vector (then coerced to `NaN` by the source's unary
minus), whereas the claimed element-wise formula yields the length-1
vector `[-(log (1/2))]`.  Parametric in `lg` (= `Math.log`). -/
theorem crossEntropy_loss_not_elementwise (lg : ℚ → ℚ) :
    crossEntropyClamp [[1/2, 1/2]] = [[1/2, 1/2]] ∧
    crossEntropyInnerVec lg [[1/2, 1/2]] [[1, 0]] = [] ∧
    crossEntropySpecLossVec lg [[1/2, 1/2]] [[1, 0]] = [-(lg (1/2))] ∧
    crossEntropyDelta [[1/2, 1/2]] [[1, 0]] = [[-(1/2), 1/2]] := by
  have hclamp : crossEntropyClamp [[1/2, 1/2]] = [[1/2, 1/2]] := by
    simp [crossEntropyClamp, mapMat, matCols, List.range_succ]
    norm_num [epsilonCE, min_def, max_def]
  have hmap : mapMat lg [[(1 : ℚ)/2, 1/2]] = [[lg (1/2), lg (1/2)]] := by
    simp [mapMat, matCols, List.range_succ]
  refine ⟨hclamp, ?_, ?_, ?_⟩
  · unfold crossEntropyInnerVec
    rw [hclamp, hmap]
    have hmm : matMult [[lg (1/2), lg (1/2)]] [[1, 0]] = [] := by
      rw [matMult]
      rw [if_neg (by simp), if_pos (by simp [matCols])]
    rw [hmm]
    rfl
  · unfold crossEntropySpecLossVec
    rw [hclamp, hmap]
    have hew : multiplyMatrix [[lg (1/2), lg (1/2)]] [[1, 0]]
        = [[lg (1/2) * 1, lg (1/2) * 0]] := by
      simp [multiplyMatrix, matCols, List.range_succ]
    rw [hew]
    show [-((0 + lg (1/2) * 1) + lg (1/2) * 0)] = [-(lg (1/2))]
    norm_num
  · unfold crossEntropyDelta
    rw [hclamp]
    simp only [subtractMatrix, matCols]
    norm_num [List.range_succ]

open LossFunctions in
/-- Witness for `crossEntropy_loss_not_elementwise`, instantiating the
abstract `Math.log` parameter with the constant-zero function (the
divergence is structural and holds for every `lg`). -/
theorem crossEntropy_loss_not_elementwise_witness :
    crossEntropyClamp [[1/2, 1/2]] = [[1/2, 1/2]] ∧
    crossEntropyInnerVec (fun _ => 0) [[1/2, 1/2]] [[1, 0]] = [] ∧
    crossEntropySpecLossVec (fun _ => 0) [[1/2, 1/2]] [[1, 0]]
      = [-((fun _ : ℚ => (0 : ℚ)) (1/2))] ∧
    crossEntropyDelta [[1/2, 1/2]] [[1, 0]] = [[-(1/2), 1/2]] :=
  crossEntropy_loss_not_elementwise (fun _ => 0)

/-! ### C8 : Softmax inference transform -/

open LossFunctions in
/-- C8 (evaluation of the code at the failing input `o = [[0], [0]]`).
`Softmax`'s `ff` scales all of `exp(o)` by the reciprocal of the first
column's sum, so for the `2×1` input both rows of the output sum to
`1/2`, which is farther from `1.0` than the claimed `1e-9` tolerance.
The only assumption on `jsExp` (= `Math.exp`) is `Math.exp(0) = 1`. -/
theorem softmax_ff_rows_not_normalized (jsExp : ℚ → ℚ) (hE : jsExp 0 = 1) :
    sumAxis1 (softmaxFF jsExp [[0], [0]]) = [1/2, 1/2] ∧
    ¬ (|(1 : ℚ)/2 - 1| ≤ 1 / 10 ^ 9) := by
  have hmap : mapMat jsExp [[(0 : ℚ)], [0]] = [[1], [1]] := by
    simp [mapMat, matCols, List.range_succ, hE]
  constructor
  · unfold softmaxFF
    rw [hmap]
    have hsum : sumAxis0 [[(1 : ℚ)], [1]] = [2] := by
      simp [sumAxis0, matCols, List.range_succ]
      norm_num
    have hrec : (oneOverVec [(2 : ℚ)]).headD 0 = 1/2 := by
      simp [oneOverVec, mapVec]
    rw [hsum, hrec]
    simp [scaleMat, mapMat, sumAxis1, matCols, List.range_succ]
  · intro h
    rw [show (1 : ℚ)/2 - 1 = -(1/2) by norm_num, abs_neg,
      abs_of_pos (by norm_num : (0 : ℚ) < 1/2)] at h
    norm_num at h

open LossFunctions in
/-- Witness for `softmax_ff_rows_not_normalized` at `jsExp = fun _ => 1`
(which satisfies `jsExp 0 = 1`, as `Math.exp` does). -/
theorem softmax_ff_rows_not_normalized_witness :
    ((fun _ : ℚ => (1 : ℚ)) 0 = 1) ∧
    (sumAxis1 (softmaxFF (fun _ => (1 : ℚ)) [[0], [0]]) = [1/2, 1/2] ∧
     ¬ (|(1 : ℚ)/2 - 1| ≤ 1 / 10 ^ 9)) :=
  ⟨rfl, softmax_ff_rows_not_normalized (fun _ => (1 : ℚ)) rfl⟩

/-! ### C9/C10 : randomPermutation -/

open RandomPermutation in
/-- Popping the value at index `j` to the front while writing `a` at `j`
is a permutation of pushing `a` to the front. -/
theorem cons_getD_set_perm : ∀ (t : Vec) (j : ℕ) (a : ℚ), j < t.length →
    List.Perm (t.getD j 0 :: t.set j a) (a :: t) := by
  intro t
  induction t with
  | nil => intro j a h; simp at h
  | cons b t' ih =>
      intro j a h
      cases j with
      | zero => simpa using List.Perm.swap a b t'
      | succ j' =>
          have hj' : j' < t'.length := by simpa using h
          have step1 : List.Perm (t'.getD j' 0 :: b :: t'.set j' a)
              (b :: t'.getD j' 0 :: t'.set j' a) := List.Perm.swap _ _ _
          have step2 : List.Perm (b :: t'.getD j' 0 :: t'.set j' a) (b :: a :: t') :=
            (ih j' a hj').cons b
          have step3 : List.Perm (b :: a :: t') (a :: b :: t') := List.Perm.swap _ _ _
          simpa using (step1.trans step2).trans step3

open RandomPermutation in
/-- The Fisher–Yates body swap is a permutation of the list. -/
theorem listSwap_perm : ∀ (l : Vec) (i j : ℕ), i < l.length → j < l.length →
    List.Perm (listSwap l i j) l := by
  intro l
  induction l with
  | nil => intro i j hi _; simp at hi
  | cons a t ih =>
      intro i j hi hj
      cases i with
      | zero =>
          cases j with
          | zero => simp [listSwap]
          | succ j' =>
              have hj' : j' < t.length := by simpa using hj
              simpa [listSwap] using cons_getD_set_perm t j' a hj'
      | succ i' =>
          cases j with
          | zero =>
              have hi' : i' < t.length := by simpa using hi
              simpa [listSwap] using cons_getD_set_perm t i' a hi'
          | succ j' =>
              have hi' : i' < t.length := by simpa using hi
              have hj' : j' < t.length := by simpa using hj
              simpa [listSwap] using (ih i' j' hi' hj').cons a

open RandomPermutation in
/-- The random draw lands inside the untouched prefix: `j ≤ i`. -/
theorem drawIndex_le (d : ℕ → ℚ) (i : ℕ) (_h0 : 0 ≤ d i) (h1 : d i < 1) :
    drawIndex d i ≤ i := by
  unfold drawIndex
  have hlt : ⌊d i * (i + 1)⌋ < (i + 1 : ℤ) := by
    rw [Int.floor_lt]
    push_cast
    nlinarith
  omega

open RandomPermutation in
/-- The Fisher–Yates loop permutes its list, for any draw sequence. -/
theorem fyLoop_perm (d : ℕ → ℚ) (hd : ∀ k, 0 ≤ d k ∧ d k < 1) :
    ∀ (i : ℕ) (l : Vec), i < l.length → List.Perm (fyLoop d i l) l := by
  intro i
  induction i with
  | zero => intro l _; exact List.Perm.refl l
  | succ i' ih =>
      intro l hi
      have hj : drawIndex d (i' + 1) ≤ i' + 1 :=
        drawIndex_le d (i' + 1) (hd (i' + 1)).1 (hd (i' + 1)).2
      have hswap : List.Perm (listSwap l (i' + 1) (drawIndex d (i' + 1))) l :=
        listSwap_perm l (i' + 1) _ hi (by omega)
      have hlen : (listSwap l (i' + 1) (drawIndex d (i' + 1))).length = l.length := by
        simp [listSwap]
      exact (ih _ (by omega)).trans hswap

/-- C9.  Permutation law: for every `n ≥ 0` and every sequence of
`Math.random()` draws (each in `[0, 1)`), `GV.randomPermutation` applied
to the index vector `0..n-1` returns a sequence that is a permutation of
`0..n-1` — every index appears exactly once, none duplicated, none lost. -/
theorem randomPermutation_is_permutation (n : ℕ) (d : ℕ → ℚ)
    (hd : ∀ k, 0 ≤ d k ∧ d k < 1) :
    List.Perm (RandomPermutation.randomPermutation d (toN n)) (toN n) ∧
    ∀ k : ℕ, k < n → (RandomPermutation.randomPermutation d (toN n)).count (k : ℚ) = 1 := by
  have hlen : (toN n).length = n := by
    unfold toN; rw [List.length_map, List.length_range]
  have hperm : List.Perm (RandomPermutation.randomPermutation d (toN n)) (toN n) := by
    unfold RandomPermutation.randomPermutation
    cases n with
    | zero =>
        have : toN 0 = [] := rfl
        rw [this]
        exact List.Perm.refl _
    | succ m =>
        exact fyLoop_perm d hd _ _ (by omega)
  refine ⟨hperm, fun k hk => ?_⟩
  rw [hperm.count_eq]
  unfold toN
  have hinj : Function.Injective (fun k : ℕ => (k : ℚ)) := fun a b h => by simpa using h
  refine List.count_eq_one_of_mem ((List.nodup_range n).map hinj) ?_
  exact List.mem_map.mpr ⟨k, List.mem_range.mpr hk, rfl⟩

/-- Witness for `randomPermutation_is_permutation` at `n = 3` with the
constant draw `1/2`. -/
theorem randomPermutation_is_permutation_witness :
    (∀ k : ℕ, 0 ≤ (fun _ : ℕ => (1 : ℚ)/2) k ∧ (fun _ : ℕ => (1 : ℚ)/2) k < 1) ∧
    (List.Perm (RandomPermutation.randomPermutation (fun _ => (1 : ℚ)/2) (toN 3)) (toN 3) ∧
     ∀ k : ℕ, k < 3 →
       (RandomPermutation.randomPermutation (fun _ => (1 : ℚ)/2) (toN 3)).count (k : ℚ) = 1) :=
  ⟨fun _ => by norm_num,
   randomPermutation_is_permutation 3 (fun _ => (1 : ℚ)/2) (fun _ => by norm_num)⟩

/-- Reading an appended list below the original length. -/
theorem getD_append_left {α : Type} (l₁ l₂ : List α) (i : ℕ) (d : α) (h : i < l₁.length) :
    (l₁ ++ l₂).getD i d = l₁.getD i d := by
  rw [List.getD_eq_getElem _ _ (by simp; omega), List.getD_eq_getElem _ _ h]
  exact List.getElem_append_left _

/-- Reading an appended singleton exactly at the original length. -/
theorem getD_append_length {α : Type} : ∀ (l : List α) (x d : α),
    (l ++ [x]).getD l.length d = x := by
  intro l
  induction l with
  | nil => intro x d; rfl
  | cons a t ih => intro x d; simp only [List.cons_append, List.length_cons, List.getD_cons_succ]; exact ih x d

/-- Writing an appended singleton exactly at the original length. -/
theorem set_append_length {α : Type} (l : List α) (x v : α) :
    (l ++ [x]).set l.length v = l ++ [v] := by
  rw [List.set_append_right _ _ (Nat.le_refl _)]
  simp

/-- C10.  `GV.randomPermutation` is non-mutating at the public
interface: at store level, the result lives at a freshly allocated
address (the clone), it holds the Fisher–Yates shuffle of the input's
values, and the input vector's own cell is unchanged by the call. -/
theorem randomPermutationStore_frame (s : Store.VecStore) (addr : ℕ) (d : ℕ → ℚ)
    (h : addr < s.length) :
    (Store.randomPermutationStore d s addr).2 = s.length ∧
    (Store.randomPermutationStore d s addr).1.getD addr [] = s.getD addr [] ∧
    (Store.randomPermutationStore d s addr).1.getD (Store.randomPermutationStore d s addr).2 []
      = RandomPermutation.randomPermutation d (s.getD addr []) := by
  have hcell : (s ++ [s.getD addr []]).getD s.length [] = s.getD addr [] :=
    getD_append_length s _ []
  simp only [Store.randomPermutationStore, Store.clone, hcell]
  rw [set_append_length]
  refine ⟨by trivial, getD_append_left s _ addr [] h, ?_⟩
  rw [getD_append_length]
  rfl

/-! ### C3 : per-epoch shuffling -/

/-- Reading every index of a list back in order reproduces the list. -/
theorem range_map_getD {α : Type} (d : α) : ∀ (l : List α),
    (List.range l.length).map (fun i => l.getD i d) = l := by
  intro l
  induction l with
  | nil => rfl
  | cons a t ih =>
      show (List.range (t.length + 1)).map (fun i => (a :: t).getD i d) = a :: t
      rw [List.range_succ_eq_map]
      rw [List.map_cons, List.map_map]
      have : ((fun i => (a :: t).getD i d) ∘ Nat.succ) = (fun i => t.getD i d) := by
        funext i
        simp
      rw [this]
      simpa using ih

/-- Ceiling division steps once per `bs`-sized block:
`⌈n/bs⌉ = ⌈(n−bs)/bs⌉ + 1` for `n ≥ 1`. -/
theorem ceil_div_step (n bs : ℕ) (hbs : 0 < bs) (hn : 0 < n) :
    (n + bs - 1) / bs = ((n - bs) + bs - 1) / bs + 1 := by
  rcases le_or_lt n bs with hle | hlt
  · have h1 : n + bs - 1 = (n - 1) + bs := by omega
    have h2 : n - bs = 0 := by omega
    rw [h1, Nat.add_div_right _ hbs, h2]
    rw [Nat.div_eq_of_lt (by omega), Nat.div_eq_of_lt (by omega)]
  · have h1 : n + bs - 1 = ((n - bs) + bs - 1) + bs := by omega
    rw [h1, Nat.add_div_right _ hbs]

/-- Concatenating the `⌈n/bs⌉` contiguous batch slices of a list
reproduces the list. -/
theorem flatten_batches {α : Type} (bs : ℕ) (hbs : 0 < bs) :
    ∀ (n : ℕ) (l : List α), l.length ≤ n →
      ((List.range ((l.length + bs - 1) / bs)).map
        (fun j => (l.drop (j * bs)).take bs)).flatten = l := by
  intro n
  induction n with
  | zero =>
      intro l hl
      have hnil : l = [] := List.length_eq_zero.mp (by omega)
      subst hnil
      rw [show (([] : List α).length + bs - 1) / bs = 0 from Nat.div_eq_of_lt (by omega)]
      rfl
  | succ m ih =>
      intro l hl
      rcases Nat.eq_zero_or_pos l.length with h0 | h0
      · have hnil : l = [] := List.length_eq_zero.mp h0
        subst hnil
        rw [show (([] : List α).length + bs - 1) / bs = 0 from Nat.div_eq_of_lt (by omega)]
        rfl
      · have hdroplen : (l.drop bs).length = l.length - bs := by simp
        have hstep : (l.length + bs - 1) / bs = ((l.drop bs).length + bs - 1) / bs + 1 := by
          rw [hdroplen]
          exact ceil_div_step l.length bs hbs h0
        rw [hstep, List.range_succ_eq_map, List.map_cons, List.map_map]
        have hshift : ((fun j => (l.drop (j * bs)).take bs) ∘ Nat.succ)
            = (fun j => ((l.drop bs).drop (j * bs)).take bs) := by
          funext j
          have h1 : Nat.succ j * bs = j * bs + bs := Nat.succ_mul j bs
          simp only [Function.comp_apply]
          rw [h1, ← List.drop_drop, List.drop_drop, List.drop_drop, Nat.add_comm]
        rw [hshift]
        have hih : ((List.range (((l.drop bs).length + bs - 1) / bs)).map
            (fun j => ((l.drop bs).drop (j * bs)).take bs)).flatten = l.drop bs :=
          ih (l.drop bs) (by omega)
        rw [List.flatten_cons, hih]
        rw [show 0 * bs = 0 from Nat.zero_mul bs, List.drop_zero]
        exact List.take_append_drop bs l

/-- C3 (evaluation of the code).  The per-epoch "shuffle" of
`Model.train` is the identity for **every** training set and **every**
sequence of random draws: the shuffled copy returned by
`GV.randomPermutation` is discarded (the source never assigns it), and
`GV.fromIndices` ignores its `indices` argument (it copies `mv[i]`, not
`mv[indices[i]]`), so the concatenation of the epoch's
`ceil(n/batchSize)` batches always equals the rows of `xTrain` in their
original order — the claim's "for some training sets and some random
draws, the epoch order differs from the original row order" is false. -/
theorem epoch_order_always_original (x : Mat) (d : ℕ → ℚ) (bs : ℕ) (hbs : 0 < bs) :
    ModelTrain.epochPermute d x = x ∧
    (ModelTrain.epochBatches bs d x).flatten = x := by
  have hperm : ModelTrain.epochPermute d x = x := by
    simp only [ModelTrain.epochPermute, ModelTrain.epochIndices, fromIndices]
    have hlen : (toN x.length).length = x.length := by
      unfold toN; rw [List.length_map, List.length_range]
    rw [hlen]
    exact range_map_getD [] x
  refine ⟨hperm, ?_⟩
  simp only [ModelTrain.epochBatches, hperm]
  exact flatten_batches bs hbs x.length x (Nat.le_refl _)

/-- Witness for `epoch_order_always_original`: a two-row training set,
batch size 1, an arbitrary draw sequence. -/
theorem epoch_order_always_original_witness :
    0 < 1 ∧
    (ModelTrain.epochPermute (fun _ => (1 : ℚ)/2) [[1, 2], [3, 4]] = [[1, 2], [3, 4]] ∧
     (ModelTrain.epochBatches 1 (fun _ => (1 : ℚ)/2) [[1, 2], [3, 4]]).flatten
        = [[1, 2], [3, 4]]) :=
  ⟨Nat.one_pos, epoch_order_always_original [[1, 2], [3, 4]] (fun _ => (1 : ℚ)/2) 1 Nat.one_pos⟩

/-- Witness for `randomPermutationStore_frame`: a two-cell store, the
input at address 0. -/
theorem randomPermutationStore_frame_witness :
    (0 < ([[1, 2, 3], [4]] : Store.VecStore).length) ∧
    ((Store.randomPermutationStore (fun _ => (1 : ℚ)/2) [[1, 2, 3], [4]] 0).2
        = ([[1, 2, 3], [4]] : Store.VecStore).length ∧
     (Store.randomPermutationStore (fun _ => (1 : ℚ)/2) [[1, 2, 3], [4]] 0).1.getD 0 []
        = ([[1, 2, 3], [4]] : Store.VecStore).getD 0 [] ∧
     (Store.randomPermutationStore (fun _ => (1 : ℚ)/2) [[1, 2, 3], [4]] 0).1.getD
         (Store.randomPermutationStore (fun _ => (1 : ℚ)/2) [[1, 2, 3], [4]] 0).2 []
        = RandomPermutation.randomPermutation (fun _ => (1 : ℚ)/2)
            (([[1, 2, 3], [4]] : Store.VecStore).getD 0 [])) :=
  ⟨by decide,
   randomPermutationStore_frame [[1, 2, 3], [4]] 0 (fun _ => (1 : ℚ)/2) (by decide)⟩

end Claims
